import Mathlib

/-!
Verification of the orchestration_engine repository: a shallow embedding of
the job model (`pkg/jobs/types.go`), the SSH execution engine
(`pkg/executor/ssh.go`), the coordinator's in-memory job store
(`pkg/controller`, store served by `cmd/controller/main.go`), and the two
transports (`pkg/transport/filesystem.go`, `pkg/transport` HTTP variant),
together with theorems settling the behavioural claims made by the
specification.

Machine integers are modelled as `Nat`/`Int` with explicit reductions
modulo `2^32` where Go's `uint32` arithmetic overflows (the SHA-256 core).
Go errors are modelled as inductive error types carrying the data that the
corresponding `fmt.Errorf`/`errors.New` message interpolates; `error`
results become `Option`/product returns.  Effectful steps (network dial,
SSH handshake, session, PTY, command run, the HTTP exchange, the
directory listing) are modelled by passing the outcome of each external
interaction in explicitly as a "world" value, so every function stays
executable and every claim can be evaluated on concrete inputs.
-/

/-! ## Go string helpers (strings.TrimSpace, suffix trimming, filepath.Ext) -/

/-- Go's `unicode.IsSpace`: the Unicode White_Space property.  The listed
code points are exactly the characters for which Go reports true. -/
def goIsSpace (c : Char) : Bool :=
  let n := c.toNat
  n == 9 || n == 10 || n == 11 || n == 12 || n == 13 || n == 32 ||
  n == 0x85 || n == 0xA0 || n == 0x1680 ||
  (0x2000 ≤ n && n ≤ 0x200A) ||
  n == 0x2028 || n == 0x2029 || n == 0x202F || n == 0x205F || n == 0x3000

/-- Go's `strings.TrimSpace`: drop leading and trailing white space. -/
def goTrimSpace (s : String) : String :=
  ⟨((s.data.dropWhile goIsSpace).reverse.dropWhile goIsSpace).reverse⟩

/-- Go's `strings.TrimSuffix` on rune lists: remove `suf` when it is a
suffix, otherwise return the list unchanged. -/
def goTrimSuffix (l suf : List Char) : List Char :=
  if suf.isSuffixOf l then l.take (l.length - suf.length) else l

/-- The scan of Go's `filepath.Ext`, on the reversed rune list: walk from
the end of the path, stopping at a path separator; on the first `'.'`
return the extension (reversed, dot included). -/
def extRevScan : List Char → Option (List Char)
  | [] => none
  | c :: rest =>
    if c = '/' then none
    else if c = '.' then some [c]
    else (extRevScan rest).map (fun e => c :: e)

/-- Go's `filepath.Ext`: the suffix of the final path element beginning at
its final dot, or `[]` when there is none. -/
def goExt (path : List Char) : List Char :=
  match extRevScan path.reverse with
  | none => []
  | some e => e.reverse

/-! ## SHA-256 (crypto/sha256) over `Nat`, words reduced mod `2^32` -/

/-- `2^32`, the modulus of Go's `uint32` word arithmetic. -/
def M32 : Nat := 4294967296

/-- Addition of 32-bit words. -/
def add32 (a b : Nat) : Nat := (a + b) % M32

/-- Right rotation of a 32-bit word by `k` bits. -/
def rotr32 (k x : Nat) : Nat := x / 2 ^ k + x % 2 ^ k * 2 ^ (32 - k)

/-- Logical right shift of a 32-bit word by `k` bits. -/
def shr32 (k x : Nat) : Nat := x / 2 ^ k

/-- SHA-256 `Ch(x,y,z) = (x ∧ y) ⊕ (¬x ∧ z)`. -/
def sha2Ch (x y z : Nat) : Nat := (x &&& y) ^^^ ((x ^^^ (M32 - 1)) &&& z)

/-- SHA-256 `Maj(x,y,z) = (x ∧ y) ⊕ (x ∧ z) ⊕ (y ∧ z)`. -/
def sha2Maj (x y z : Nat) : Nat := (x &&& y) ^^^ (x &&& z) ^^^ (y &&& z)

/-- SHA-256 `Σ₀`. -/
def sha2S0 (x : Nat) : Nat := rotr32 2 x ^^^ rotr32 13 x ^^^ rotr32 22 x

/-- SHA-256 `Σ₁`. -/
def sha2S1 (x : Nat) : Nat := rotr32 6 x ^^^ rotr32 11 x ^^^ rotr32 25 x

/-- SHA-256 `σ₀`. -/
def sha2s0 (x : Nat) : Nat := rotr32 7 x ^^^ rotr32 18 x ^^^ shr32 3 x

/-- SHA-256 `σ₁`. -/
def sha2s1 (x : Nat) : Nat := rotr32 17 x ^^^ rotr32 19 x ^^^ shr32 10 x

/-- The 64 SHA-256 round constants. -/
def sha2K : List Nat :=
  [1116352408, 1899447441, 3049323471, 3921009573, 961987163,
   1508970993, 2453635748, 2870763221, 3624381080, 310598401,
   607225278, 1426881987, 1925078388, 2162078206, 2614888103,
   3248222580, 3835390401, 4022224774, 264347078, 604807628,
   770255983, 1249150122, 1555081692, 1996064986, 2554220882,
   2821834349, 2952996808, 3210313671, 3336571891, 3584528711,
   113926993, 338241895, 666307205, 773529912, 1294757372,
   1396182291, 1695183700, 1986661051, 2177026350, 2456956037,
   2730485921, 2820302411, 3259730800, 3345764771, 3516065817,
   3600352804, 4094571909, 275423344, 430227734, 506948616,
   659060556, 883997877, 958139571, 1322822218, 1537002063,
   1747873779, 1955562222, 2024104815, 2227730452, 2361852424,
   2428436474, 2756734187, 3204031479, 3329325298]

/-- The SHA-256 initial hash state. -/
def sha2H0 : List Nat :=
  [1779033703, 3144134277, 1013904242, 2773480762,
   1359893119, 2600822924, 528734635, 1541459225]

/-- Extend the 16-word message block by `n` further schedule words. -/
def sha2Extend : Nat → List Nat → List Nat
  | 0, ws => ws
  | n + 1, ws =>
    let k := ws.length
    let wNew := add32 (add32 (sha2s1 (ws.getD (k - 2) 0)) (ws.getD (k - 7) 0))
                      (add32 (sha2s0 (ws.getD (k - 15) 0)) (ws.getD (k - 16) 0))
    sha2Extend n (ws ++ [wNew])

/-- One SHA-256 compression round on the eight-word working state. -/
def sha2Round (st : List Nat) (ki wi : Nat) : List Nat :=
  match st with
  | [a, b, c, d, e, f, g, h] =>
    let t1 := add32 h (add32 (sha2S1 e) (add32 (sha2Ch e f g) (add32 ki wi)))
    let t2 := add32 (sha2S0 a) (sha2Maj a b c)
    [add32 t1 t2, a, b, c, add32 d t1, e, f, g]
  | st => st

/-- Compress one 16-word block into the running hash state. -/
def sha2Compress (h : List Nat) (block : List Nat) : List Nat :=
  let ws := sha2Extend 48 block
  let st := (sha2K.zip ws).foldl (fun st p => sha2Round st p.1 p.2) h
  (h.zip st).map (fun p => add32 p.1 p.2)

/-- A `Nat` as 8 big-endian bytes (the padded bit-length field). -/
def be64 (n : Nat) : List Nat :=
  [n / 2 ^ 56 % 256, n / 2 ^ 48 % 256, n / 2 ^ 40 % 256, n / 2 ^ 32 % 256,
   n / 2 ^ 24 % 256, n / 2 ^ 16 % 256, n / 2 ^ 8 % 256, n % 256]

/-- SHA-256 message padding: `0x80`, zeros to 56 mod 64, 64-bit bit length. -/
def sha2Pad (msg : List Nat) : List Nat :=
  let padZeros := (119 - msg.length % 64) % 64
  msg ++ [0x80] ++ List.replicate padZeros 0 ++ be64 (8 * msg.length)

/-- Big-endian bytes to 32-bit words, four at a time. -/
def bytesToWords : List Nat → List Nat
  | b0 :: b1 :: b2 :: b3 :: rest =>
    (((b0 * 256 + b1) * 256 + b2) * 256 + b3) :: bytesToWords rest
  | _ => []

/-- Words into 16-word blocks. -/
def wordsToBlocks : List Nat → List (List Nat)
  | w0 :: w1 :: w2 :: w3 :: w4 :: w5 :: w6 :: w7 ::
    w8 :: w9 :: w10 :: w11 :: w12 :: w13 :: w14 :: w15 :: rest =>
    [w0, w1, w2, w3, w4, w5, w6, w7, w8, w9, w10, w11, w12, w13, w14, w15]
      :: wordsToBlocks rest
  | _ => []

/-- A 32-bit word as 4 big-endian bytes. -/
def wordBytes (w : Nat) : List Nat :=
  [w / 2 ^ 24 % 256, w / 2 ^ 16 % 256, w / 2 ^ 8 % 256, w % 256]

/-- `sha256.Sum256`: the 32-byte SHA-256 digest of a byte string. -/
def sha256Bytes (msg : List Nat) : List Nat :=
  (((wordsToBlocks (bytesToWords (sha2Pad msg))).foldl sha2Compress sha2H0).map
    wordBytes).flatten

/-- Lower-case hex digit. -/
def hexDigit (n : Nat) : Char :=
  if n < 10 then Char.ofNat (48 + n) else Char.ofNat (87 + n)

/-- `hex.EncodeToString`: lower-case hex of a byte string. -/
def hexEncode (bs : List Nat) : String :=
  ⟨(bs.map (fun b => [hexDigit (b / 16), hexDigit (b % 16)])).flatten⟩

/-- The UTF-8 bytes of one code point (Go's `[]byte(string)` conversion). -/
def utf8Bytes (c : Char) : List Nat :=
  let n := c.toNat
  if n < 0x80 then [n]
  else if n < 0x800 then [0xC0 + n / 0x40, 0x80 + n % 0x40]
  else if n < 0x10000 then
    [0xE0 + n / 0x1000, 0x80 + n / 0x40 % 0x40, 0x80 + n % 0x40]
  else
    [0xF0 + n / 0x40000, 0x80 + n / 0x1000 % 0x40,
     0x80 + n / 0x40 % 0x40, 0x80 + n % 0x40]

/-- A Go string as its UTF-8 bytes. -/
def strBytes (s : String) : List Nat := (s.data.map utf8Bytes).flatten

/-- `hex.EncodeToString(sha256.Sum256([]byte(s))[:])`: the lowercase hex
SHA-256 of a string, as computed by the executor and the CLI. -/
def sha256Hex (s : String) : String := hexEncode (sha256Bytes (strBytes s))


/-! ## The job model: `pkg/jobs/types.go` -/

namespace jobs

/-- Go's `type Status string`; the four declared constants are below. -/
abbrev Status := String

/-- `StatusPending`. -/
def StatusPending : Status := "pending"

/-- `StatusRunning`. -/
def StatusRunning : Status := "running"

/-- `StatusFailed`. -/
def StatusFailed : Status := "failed"

/-- `StatusSucceeded`. -/
def StatusSucceeded : Status := "succeeded"

/-- `jobs.CredentialBundle`. -/
structure CredentialBundle where
  Username : String
  Password : String
deriving DecidableEq

/-- `jobs.JobDefinition`.  `TargetPort` is a Go `int` (`Int` here); time
never appears in the definition.  `Metadata` is the string→string map,
modelled as an association list. -/
structure JobDefinition where
  ID : String
  TargetHost : String
  TargetPort : Int
  TargetUser : String
  Command : String
  Arguments : List String
  AllowTTY : Bool
  Checksum : String
  Metadata : List (String × String)
  Credentials : CredentialBundle
deriving DecidableEq

/-- `jobs.Result`.  `StartedAt`/`FinishedAt` are `time.Time` values,
modelled as the `Nat` readings of an abstract UTC clock with `0` playing
Go's zero `time.Time`. -/
structure Result where
  JobID : String
  Status : String
  StartedAt : Nat
  FinishedAt : Nat
  ExitCode : Int
  Stdout : String
  Stderr : String
  Error : String
  Metadata : List (String × String)
deriving DecidableEq

/-- Go's zero value `jobs.Result{}`. -/
def Result.zero : Result :=
  { JobID := "", Status := "", StartedAt := 0, FinishedAt := 0, ExitCode := 0,
    Stdout := "", Stderr := "", Error := "", Metadata := [] }

/-- The errors `CredentialBundle.Validate` can return. -/
inductive CredErr
  | usernameRequired
  | passwordRequired
deriving DecidableEq

/-- The message of a credential validation error. -/
def CredErr.msg : CredErr → String
  | .usernameRequired => "username required"
  | .passwordRequired => "password required"

/-- The errors `JobDefinition.Validate` can return, carrying the data its
`fmt.Errorf` message interpolates. -/
inductive ValErr
  | emptyID
  | missingTargetHost (id : String)
  | missingTargetUser (id : String)
  | missingCommand (id : String)
  | missingChecksum (id : String)
  | credentialsInvalid (id : String) (e : CredErr)
deriving DecidableEq

/-- The message of a job validation error. -/
def ValErr.msg : ValErr → String
  | .emptyID => "job id cannot be empty"
  | .missingTargetHost id => s!"job {id} missing target_host"
  | .missingTargetUser id => s!"job {id} missing target_user"
  | .missingCommand id => s!"job {id} missing command"
  | .missingChecksum id => s!"job {id} missing checksum"
  | .credentialsInvalid id e =>
    let m := e.msg
    s!"job {id} credentials invalid: {m}"

/-- `CredentialBundle.Validate`: non-blank username and password. -/
def CredentialBundle.Validate (c : CredentialBundle) : Option CredErr :=
  if goTrimSpace c.Username = "" then some .usernameRequired
  else if goTrimSpace c.Password = "" then some .passwordRequired
  else none

/-- `JobDefinition.Validate`: reject a job missing ID, TargetHost,
TargetUser, Command, Checksum, or a valid credential bundle. -/
def JobDefinition.Validate (j : JobDefinition) : Option ValErr :=
  if j.ID = "" then some .emptyID
  else if j.TargetHost = "" then some (.missingTargetHost j.ID)
  else if j.TargetUser = "" then some (.missingTargetUser j.ID)
  else if j.Command = "" then some (.missingCommand j.ID)
  else if j.Checksum = "" then some (.missingChecksum j.ID)
  else
    match j.Credentials.Validate with
    | some e => some (.credentialsInvalid j.ID e)
    | none => none

end jobs

/-! ## The execution engine: `pkg/executor/ssh.go`

`Execute` interleaves pure control flow with external effects (clock
reads, the TCP dial, the SSH handshake, session and PTY setup, and the
remote run racing the context).  The effects' outcomes are passed in as an
`SSHWorld`; `Execute` additionally reports whether it consumed the dial
outcome, which is exactly whether the Go code reached
`dialer.DialContext`. -/

namespace executor

/-- `executor.SSHCredentials` (the fields `newClient` reads). -/
structure SSHCredentials where
  Address : String
  Username : String
  Password : String
  Fingerprint : String
deriving DecidableEq

/-- `executor.SSHExecutor`; the allow-list set is modelled as a list. -/
structure SSHExecutor where
  AllowedCommands : List String
  DialTimeout : Nat
deriving DecidableEq

/-- The two context errors `runCtx.Err()` can produce. -/
inductive CtxErr
  | canceled
  | deadlineExceeded
deriving DecidableEq

/-- The error `session.Run` can deliver: an `*ssh.ExitError` carrying the
remote exit status, or any other error with its message. -/
inductive RunErr
  | exitStatus (status : Int)
  | other (msg : String)
deriving DecidableEq

/-- Which arm of `Execute`'s final `select` fires: the context is done
first, or `session.Run` finishes first (with `none` meaning it returned a
nil error). -/
inductive RunOutcome
  | ctxDone (e : CtxErr)
  | finished (e : Option RunErr)
deriving DecidableEq

/-- Outcomes of the external interactions one `Execute` call can make.
`none` in an error slot means that step succeeds; the captured strings are
the contents of the stdout/stderr buffers when `Execute` reads them. -/
structure SSHWorld where
  dialErr : Option String
  handshakeErr : Option String
  sessionErr : Option String
  ptyErr : Option String
  runOutcome : RunOutcome
  stdoutCaptured : String
  stderrCaptured : String
deriving DecidableEq

/-- Every error `Execute` can return, carrying what its Go message
interpolates. -/
inductive ExecErr
  | validation (e : jobs.ValErr)
  | notAllowed (cmd : String)
  | checksumMismatch
  | missingAddressOrUsername
  | missingPassword
  | dialFailed (addr : String) (msg : String)
  | handshakeFailed (msg : String)
  | startSession (msg : String)
  | requestPty (msg : String)
  | ctx (e : CtxErr)
  | runFailed (e : RunErr)
deriving DecidableEq

/-- The `Error()` string of an executor error. -/
def ExecErr.msg : ExecErr → String
  | .validation e => e.msg
  | .notAllowed cmd => s!"command {cmd} not allowed"
  | .checksumMismatch => "checksum mismatch"
  | .missingAddressOrUsername => "missing SSH address or username"
  | .missingPassword => "missing password"
  | .dialFailed addr m => s!"dial {addr}: {m}"
  | .handshakeFailed m => s!"handshake: {m}"
  | .startSession m => s!"start session: {m}"
  | .requestPty m => s!"request pty: {m}"
  | .ctx .canceled => "context canceled"
  | .ctx .deadlineExceeded => "context deadline exceeded"
  | .runFailed (.exitStatus n) => s!"Process exited with status {n}"
  | .runFailed (.other m) => m

/-- `errorString`: empty on nil, the error's message otherwise. -/
def errorString : Option ExecErr → String
  | none => ""
  | some e => e.msg

/-- `statusFromError`: failed on non-nil error, succeeded otherwise. -/
def statusFromError : Option ExecErr → String
  | some _ => jobs.StatusFailed
  | none => jobs.StatusSucceeded

/-- `SSHExecutor.validateJob`: `job.Validate()`, then the non-empty
allow-list check, then the recomputed SHA-256 against `job.Checksum`. -/
def SSHExecutor.validateJob (e : SSHExecutor) (job : jobs.JobDefinition) :
    Option ExecErr :=
  match job.Validate with
  | some err => some (.validation err)
  | none =>
    if 0 < e.AllowedCommands.length ∧ job.Command ∉ e.AllowedCommands then
      some (.notAllowed job.Command)
    else if sha256Hex job.Command ≠ job.Checksum then some .checksumMismatch
    else none

/-- `SSHExecutor.buildResult`: always a fully-populated `Result`; the exit
code is the remote status for an `*ssh.ExitError`, `0` for nil and `-1`
for every other error; `now` is the `time.Now().UTC()` read the function
makes for `FinishedAt`. -/
def SSHExecutor.buildResult (_e : SSHExecutor) (job : jobs.JobDefinition)
    (started : Nat) (stdout stderr : String) (runErr : Option ExecErr)
    (now : Nat) : jobs.Result :=
  let exitCode : Int :=
    match runErr with
    | none => 0
    | some (.runFailed (.exitStatus n)) => n
    | some _ => -1
  { JobID := job.ID, Status := statusFromError runErr, StartedAt := started,
    FinishedAt := now, ExitCode := exitCode, Stdout := stdout,
    Stderr := stderr, Error := errorString runErr, Metadata := job.Metadata }

/-- `SSHExecutor.newClient` up to and including the handshake: the
credential checks happen before the dial, so the returned flag records
whether `dialer.DialContext` was reached. -/
def SSHExecutor.newClient (_e : SSHExecutor) (creds : SSHCredentials)
    (w : SSHWorld) : Bool × Option ExecErr :=
  if creds.Address = "" ∨ creds.Username = "" then
    (false, some .missingAddressOrUsername)
  else if creds.Password = "" then (false, some .missingPassword)
  else
    match w.dialErr with
    | some m => (true, some (.dialFailed creds.Address m))
    | none =>
      match w.handshakeErr with
      | some m => (true, some (.handshakeFailed m))
      | none => (true, none)

/-- What one `Execute` call produced: the result, the returned error, and
whether the TCP dial was attempted. -/
structure ExecOutcome where
  result : jobs.Result
  error : Option ExecErr
  dialed : Bool
deriving DecidableEq

/-- `SSHExecutor.Execute`.  `t0` is the `time.Now().UTC()` read into
`started`; `t1` is the read `buildResult` makes.  Mirrors the Go control
flow branch for branch — including the PTY-failure branch, which returns
the zero `jobs.Result{}` instead of calling `buildResult`. -/
def SSHExecutor.Execute (e : SSHExecutor) (job : jobs.JobDefinition)
    (creds : SSHCredentials) (w : SSHWorld) (t0 t1 : Nat) : ExecOutcome :=
  match e.validateJob job with
  | some err => ⟨e.buildResult job t0 "" "" (some err) t1, some err, false⟩
  | none =>
    match e.newClient creds w with
    | (d, some err) => ⟨e.buildResult job t0 "" "" (some err) t1, some err, d⟩
    | (d, none) =>
      match w.sessionErr with
      | some m =>
        let err := ExecErr.startSession m
        ⟨e.buildResult job t0 "" "" (some err) t1, some err, d⟩
      | none =>
        match (if job.AllowTTY then w.ptyErr else none) with
        | some m => ⟨jobs.Result.zero, some (.requestPty m), d⟩
        | none =>
          match w.runOutcome with
          | .ctxDone ce =>
            let err := ExecErr.ctx ce
            ⟨e.buildResult job t0 w.stdoutCaptured w.stderrCaptured
              (some err) t1, some err, d⟩
          | .finished re =>
            let err := re.map ExecErr.runFailed
            ⟨e.buildResult job t0 w.stdoutCaptured w.stderrCaptured err t1,
              err, d⟩

end executor

/-! ## The coordinator's job store: `pkg/controller` (`Store`)

Go's `map[string]*jobRecord` is modelled as an association list with
in-place update; each method returns the next store state together with
its `error` (the mutex serialises the methods, so the sequential state
semantics is the method semantics). -/

namespace controller

/-- `controller.jobRecord`. -/
structure jobRecord where
  job : jobs.JobDefinition
  status : String
  result : Option jobs.Result
deriving DecidableEq

/-- `controller.Store`: the FIFO of waiting job IDs plus the record
table. -/
structure Store where
  queue : List String
  records : List (String × jobRecord)
deriving DecidableEq

/-- `controller.NewStore()`. -/
def NewStore : Store := { queue := [], records := [] }

/-- Map read `s.records[id]`. -/
def lookupRecord (rs : List (String × jobRecord)) (id : String) :
    Option jobRecord :=
  (rs.find? (fun p => p.1 == id)).map (fun p => p.2)

/-- Map write `s.records[id] = r`: replace the binding in place, or append
a fresh one. -/
def updateRecord (rs : List (String × jobRecord)) (id : String)
    (r : jobRecord) : List (String × jobRecord) :=
  match rs with
  | [] => [(id, r)]
  | (k, v) :: t =>
    if k == id then (k, r) :: t else (k, v) :: updateRecord t id r

/-- The record for `id`, if any. -/
def Store.find (s : Store) (id : String) : Option jobRecord :=
  lookupRecord s.records id

/-- The status of `id`'s record, if any. -/
def Store.statusOf (s : Store) (id : String) : Option String :=
  (s.find id).map (fun r => r.status)

/-- The errors the store methods can return, carrying what their
`fmt.Errorf` message interpolates. -/
inductive StoreErr
  | invalidJob (e : jobs.ValErr)
  | alreadyExists (id : String)
  | notFound (id : String)
deriving DecidableEq

/-- The message of a store error. -/
def StoreErr.msg : StoreErr → String
  | .invalidJob e => e.msg
  | .alreadyExists id => s!"job {id} already exists"
  | .notFound id => s!"job {id} not found"

/-- `Store.Enqueue`: validate, reject a present ID, else insert a pending
record and append the ID to the queue tail. -/
def Store.Enqueue (s : Store) (job : jobs.JobDefinition) :
    Store × Option StoreErr :=
  match job.Validate with
  | some e => (s, some (.invalidJob e))
  | none =>
    match s.find job.ID with
    | some _ => (s, some (.alreadyExists job.ID))
    | none =>
      ({ queue := s.queue ++ [job.ID],
         records := updateRecord s.records job.ID
           { job := job, status := jobs.StatusPending, result := none } },
       none)

/-- `Store.Next`: pop the queue head, mark its record running, and return
a value copy of the job; `(s, none)` models Go's `(nil, false)` on an
empty queue.  When the popped ID has no record the Go code dereferences a
nil pointer; that state is unreachable through the store's methods, and
the model then pops the ID and returns no job. -/
def Store.Next (s : Store) : Store × Option jobs.JobDefinition :=
  match s.queue with
  | [] => (s, none)
  | jobID :: rest =>
    match s.find jobID with
    | none => ({ s with queue := rest }, none)
    | some rec =>
      ({ queue := rest,
         records := updateRecord s.records jobID
           { rec with status := jobs.StatusRunning } },
       some rec.job)

/-- `Store.Complete`: unknown `result.JobID` is an error; otherwise the
record's status becomes `result.Status` and a copy of the result is
stored. -/
def Store.Complete (s : Store) (result : jobs.Result) :
    Store × Option StoreErr :=
  match s.find result.JobID with
  | none => (s, some (.notFound result.JobID))
  | some rec =>
    ({ s with
       records := updateRecord s.records result.JobID
         { rec with status := result.Status, result := some result } },
     none)

/-- `Store.Lookup`: `("", nil, false)` when unknown, else the status and
the stored result copy (if any) with `found = true`. -/
def Store.Lookup (s : Store) (jobID : String) :
    String × Option jobs.Result × Bool :=
  match s.find jobID with
  | none => ("", none, false)
  | some rec => (rec.status, rec.result, true)

/-- One client call against the store (`Lookup` reads only). -/
inductive Op
  | enqueue (j : jobs.JobDefinition)
  | next
  | complete (r : jobs.Result)
  | lookupOp (id : String)
deriving DecidableEq

/-- The store state after one call. -/
def applyOp (s : Store) : Op → Store
  | .enqueue j => (s.Enqueue j).1
  | .next => s.Next.1
  | .complete r => (s.Complete r).1
  | .lookupOp _ => s

/-- The store state reached from the fresh store by a call sequence. -/
def runOps (ops : List Op) : Store := ops.foldl applyOp NewStore

/-- The status of `id`'s record after the first `n` calls of `ops`. -/
def statusAt (ops : List Op) (id : String) (n : Nat) : Option String :=
  ((runOps (ops.take n)).statusOf id)

end controller

/-! ## The filesystem transport: `pkg/transport/filesystem.go`

`scanInbox` walks the inbox and selects the first regular file whose
final extension is `.json` and whose preceding extension is `.job`; the
walk is modelled as the depth-first listing it visits. -/

namespace transport

/-- One entry `filepath.WalkDir` visits. -/
structure DirEntry where
  path : List Char
  isDir : Bool
deriving DecidableEq

/-- The two-suffix filter of `scanInbox` (`filesystem.go` lines 62–67):
`filepath.Ext(path) == ".json"` and
`filepath.Ext(strings.TrimSuffix(path, filepath.Ext(path))) == ".job"`. -/
def jobFileFilter (path : List Char) : Bool :=
  goExt path == ".json".data &&
  goExt (goTrimSuffix path (goExt path)) == ".job".data

/-- The path `scanInbox` selects from a walk listing: the first non-directory
entry passing `jobFileFilter`, if any. -/
def scanSelect : List DirEntry → Option (List Char)
  | [] => none
  | e :: rest =>
    if e.isDir then scanSelect rest
    else if jobFileFilter e.path then some e.path
    else scanSelect rest

/-- The path `FilesystemTransport.WriteResult` writes for job-file token
`jobPath`: `jobPath + ".result.json"`. -/
def resultPath (jobPath : List Char) : List Char :=
  jobPath ++ ".result.json".data

end transport

/-! ## The HTTP long-poll transport: `pkg/transport` (HTTP variant)

One loop iteration of `NextJob` consumes one `PollEvent`: the stop
channel being readable, a failed `client.Do`, a failed body read, or an
HTTP response.  A response carries its status, its body text, and what
`json.Unmarshal` makes of the body (shallow model of the decoder). -/

namespace transport

/-- What one iteration of the `NextJob` loop observes. -/
inductive PollEvent
  | stopSignal
  | doErr
  | readErr (msg : String)
  | resp (status : Nat) (bodyText : String) (parsed : Option jobs.JobDefinition)
deriving DecidableEq

/-- The errors `NextJob` can return. -/
inductive NextJobErr
  | notConfigured
  | stopped
  | bodyRead (msg : String)
  | unmarshal
  | invalidJob (e : jobs.ValErr)
  | badStatus (status : Nat) (body : String)
deriving DecidableEq

/-- The message of a `NextJob` error (`"polling stopped"`, the hard
`"controller returned %d: %s"` error, …). -/
def NextJobErr.msg : NextJobErr → String
  | .notConfigured => "controller base URL not configured"
  | .stopped => "polling stopped"
  | .bodyRead m => m
  | .unmarshal => "unmarshal error"
  | .invalidJob e => e.msg
  | .badStatus s b =>
    let t := goTrimSpace b
    s!"controller returned {s}: {t}"

/-- How `NextJob` leaves its loop: with a job and its receipt token, or
with an error. -/
inductive NextJobExit
  | job (j : jobs.JobDefinition) (token : String)
  | err (e : NextJobErr)
deriving DecidableEq

/-- The `NextJob` polling loop over the events it observes; `none` means
the loop is still polling when the event list runs out (a 204 and a
failed `client.Do` both sleep one poll interval and rescan). -/
def nextJobLoop : List PollEvent → Option NextJobExit
  | [] => none
  | ev :: rest =>
    match ev with
    | .stopSignal => some (.err .stopped)
    | .doErr => nextJobLoop rest
    | .readErr m => some (.err (.bodyRead m))
    | .resp status body parsed =>
      if status = 204 then nextJobLoop rest
      else if status = 200 then
        match parsed with
        | none => some (.err .unmarshal)
        | some job =>
          match job.Validate with
          | some e => some (.err (.invalidJob e))
          | none => some (.job job job.ID)
      else some (.err (.badStatus status body))

/-- `HTTPTransport.NextJob`: the blank-BaseURL guard, then the loop. -/
def NextJob (baseURL : String) (events : List PollEvent) :
    Option NextJobExit :=
  if goTrimSpace baseURL = "" then some (.err .notConfigured)
  else nextJobLoop events

/-- What the one POST of `WriteResult` observes. -/
inductive PostEvent
  | doErr (msg : String)
  | readErr (msg : String)
  | resp (status : Nat) (bodyText : String)
deriving DecidableEq

/-- The errors `WriteResult` can return. -/
inductive WriteResultErr
  | missingJobID
  | doFailed (msg : String)
  | bodyRead (msg : String)
  | rejected (status : Nat) (body : String)
deriving DecidableEq

/-- The message of a `WriteResult` error. -/
def WriteResultErr.msg : WriteResultErr → String
  | .missingJobID => "job id required for result submission"
  | .doFailed m => m
  | .bodyRead m => m
  | .rejected s b =>
    let t := goTrimSpace b
    s!"controller rejected result ({s}): {t}"

/-- `HTTPTransport.WriteResult`: blank job IDs are rejected up front; a
single POST is made and only a 202 answer returns nil. -/
def WriteResult (jobID : String) (ev : PostEvent) : Option WriteResultErr :=
  if goTrimSpace jobID = "" then some .missingJobID
  else
    match ev with
    | .doErr m => some (.doFailed m)
    | .readErr m => some (.bodyRead m)
    | .resp status body =>
      if status = 202 then none else some (.rejected status body)

end transport

/-! ## Call-sequence discipline and the status-transition relation -/

namespace controller

/-- A store call is disciplined when any `Complete` it makes carries a
terminal status and targets a job that is no longer pending (one already
handed out by `Next`) — the shape of every result an agent can
legitimately report back.  All other calls are unrestricted. -/
def okStep (s : Store) : Op → Bool
  | .complete r =>
    (r.Status == jobs.StatusSucceeded || r.Status == jobs.StatusFailed) &&
    !(s.statusOf r.JobID == some jobs.StatusPending)
  | _ => true

/-- A call sequence each of whose calls is disciplined with respect to
the store state it executes against. -/
inductive ValidOps : Store → List Op → Prop
  | nil (s : Store) : ValidOps s []
  | cons {s : Store} {op : Op} {ops : List Op} :
    okStep s op = true → ValidOps (applyOp s op) ops → ValidOps s (op :: ops)

/-- The forward status moves of one record in one store call: unchanged,
created `pending`, `pending → running`, `running → terminal`, or a
terminal status overwritten by a terminal status (a re-`Complete`). -/
def forwardStep (old new : Option String) : Prop :=
  new = old ∨
  (old = none ∧ new = some jobs.StatusPending) ∨
  (old = some jobs.StatusPending ∧ new = some jobs.StatusRunning) ∨
  (old = some jobs.StatusRunning ∧
    (new = some jobs.StatusSucceeded ∨ new = some jobs.StatusFailed)) ∨
  ((old = some jobs.StatusSucceeded ∨ old = some jobs.StatusFailed) ∧
    (new = some jobs.StatusSucceeded ∨ new = some jobs.StatusFailed))

/-- The invariant the store maintains along disciplined call sequences:
the FIFO has no duplicate IDs, every queued ID's record is `pending`, and
every record's status is one of the four declared constants. -/
def StoreInv (s : Store) : Prop :=
  s.queue.Nodup ∧
  (∀ id ∈ s.queue, s.statusOf id = some jobs.StatusPending) ∧
  (∀ id r, s.find id = some r →
    r.status = jobs.StatusPending ∨ r.status = jobs.StatusRunning ∨
    r.status = jobs.StatusSucceeded ∨ r.status = jobs.StatusFailed)

end controller

/-! ## Concrete demonstration inputs -/

/-- An executor with no allow-list and a 10-unit dial timeout. -/
def demoExecutor : executor.SSHExecutor :=
  { AllowedCommands := [], DialTimeout := 10 }

/-- Fully-populated credentials. -/
def demoCreds : executor.SSHCredentials :=
  { Address := "h:22", Username := "u", Password := "pw", Fingerprint := "" }

/-- A world where every external step succeeds and the remote command
exits zero. -/
def okWorld : executor.SSHWorld :=
  { dialErr := none, handshakeErr := none, sessionErr := none,
    ptyErr := none, runOutcome := .finished none,
    stdoutCaptured := "hi\n", stderrCaptured := "" }

/-- A job whose fields all validate but whose `Checksum` is not the
SHA-256 of its `Command`. -/
def mismatchJob : jobs.JobDefinition :=
  { ID := "j1", TargetHost := "h", TargetPort := 22, TargetUser := "u",
    Command := "ls", Arguments := [], AllowTTY := false,
    Checksum := "deadbeef", Metadata := [],
    Credentials := { Username := "u", Password := "pw" } }

/-- The lowercase hex SHA-256 of `"ls"`. -/
def lsChecksum : String :=
  "c7b68ac37f364473e922936708e7f43c293dd07b295171566c07ff5fe024fab9"

/-- A valid TTY-requesting job with the correct checksum. -/
def ptyJob : jobs.JobDefinition :=
  { mismatchJob with
    ID := "jpty", AllowTTY := true, Checksum := lsChecksum,
    Metadata := [("k", "v")] }

/-- A world where dial, handshake and session succeed but the PTY request
is refused. -/
def ptyWorld : executor.SSHWorld :=
  { okWorld with
    ptyErr := some "pty rejected", stdoutCaptured := "", stderrCaptured := "" }

/-- `Execute` on the PTY-refusal run, with clock readings 5 and 9. -/
def ptyOutcome : executor.ExecOutcome :=
  demoExecutor.Execute ptyJob demoCreds ptyWorld 5 9

/-- A store-valid job with the given ID (`Enqueue` does not check the
checksum's value, only that it is non-empty). -/
def demoJob (id : String) : jobs.JobDefinition :=
  { mismatchJob with ID := id, Command := "echo hi", Checksum := "abc" }

/-- The store holding exactly the pending job `"a"`. -/
def dupStore : controller.Store :=
  (controller.NewStore.Enqueue (demoJob "a")).1

/-- An invalid job (empty `Command`) that reuses the ID `"a"`. -/
def invalidDupJob : jobs.JobDefinition :=
  { demoJob "a" with Command := "" }

/-- A succeeded result for job `"a"`. -/
def res1 : jobs.Result :=
  { jobs.Result.zero with JobID := "a", Status := jobs.StatusSucceeded }

/-- A failed result for job `"a"`, reported after `res1`. -/
def res2 : jobs.Result :=
  { jobs.Result.zero with
    JobID := "a", Status := jobs.StatusFailed, ExitCode := 1 }

/-- Enqueue `"c1"` and complete it as succeeded while it is still
pending — never dequeued. -/
def skipOps : List controller.Op :=
  [.enqueue (demoJob "c1"),
   .complete { jobs.Result.zero with
               JobID := "c1", Status := jobs.StatusSucceeded }]

/-- Enqueue `"r1"`, dequeue it, then complete it with a result whose
status field says `pending`. -/
def regressOps : List controller.Op :=
  [.enqueue (demoJob "r1"), .next,
   .complete { jobs.Result.zero with
               JobID := "r1", Status := jobs.StatusPending }]

/-- A disciplined sequence: enqueue `"w1"`, dequeue it, complete it as
succeeded. -/
def demoOps : List controller.Op :=
  [.enqueue (demoJob "w1"), .next,
   .complete { jobs.Result.zero with
               JobID := "w1", Status := jobs.StatusSucceeded }]

/-- A walk listing: the inbox directory itself, a result file left from a
previous run, a stray file, and a job file. -/
def demoEntries : List transport.DirEntry :=
  [{ path := "inbox".data, isDir := true },
   { path := "inbox/a.job.json.result.json".data, isDir := false },
   { path := "inbox/readme.txt".data, isDir := false },
   { path := "inbox/a.job.json".data, isDir := false }]

/-! ## Theorems -/

open jobs executor controller transport

/-- Reading back the binding just written. -/
theorem lookupRecord_update_self (rs : List (String × jobRecord))
    (id : String) (r : jobRecord) :
    lookupRecord (updateRecord rs id r) id = some r := by
  induction rs with
  | nil => simp [updateRecord, lookupRecord]
  | cons hd tl ih =>
    by_cases h : hd.1 = id
    · simp [updateRecord, lookupRecord, h]
    · have hb : (hd.1 == id) = false := beq_eq_false_iff_ne.mpr h
      simp only [updateRecord, hb, Bool.false_eq_true, if_false]
      simpa [lookupRecord, List.find?, hb] using ih

/-- Writing one binding leaves every other binding unchanged. -/
theorem lookupRecord_update_ne (rs : List (String × jobRecord))
    (id id' : String) (r : jobRecord) (h : id' ≠ id) :
    lookupRecord (updateRecord rs id r) id' = lookupRecord rs id' := by
  induction rs with
  | nil =>
    have hb : (id == id') = false := beq_eq_false_iff_ne.mpr (Ne.symm h)
    simp [updateRecord, lookupRecord, List.find?, hb]
  | cons hd tl ih =>
    by_cases hk : hd.1 = id
    · have hb : (id == id') = false := beq_eq_false_iff_ne.mpr (Ne.symm h)
      have hb' : (hd.1 == id') = false := by rw [hk]; exact hb
      simp [updateRecord, lookupRecord, List.find?, hk, hb, hb']
    · have hb : (hd.1 == id) = false := beq_eq_false_iff_ne.mpr hk
      simp only [updateRecord, hb, Bool.false_eq_true, if_false]
      by_cases he : hd.1 = id'
      · simp [lookupRecord, List.find?, he]
      · have hb' : (hd.1 == id') = false := beq_eq_false_iff_ne.mpr he
        simpa [lookupRecord, List.find?, hb'] using ih

/-- C1.  For every job whose `Checksum` field is not the lowercase hex
SHA-256 of its `Command` field, `SSHExecutor.Execute` fails validation and
returns before any network dial is attempted: the dial/handshake branch is
unreachable under the checksum-mismatch hypothesis. -/
theorem execute_checksum_mismatch_never_dials
    (e : SSHExecutor) (job : JobDefinition) (creds : SSHCredentials)
    (w : SSHWorld) (t0 t1 : Nat)
    (h : job.Checksum ≠ sha256Hex job.Command) :
    (e.Execute job creds w t0 t1).dialed = false ∧
    (e.Execute job creds w t0 t1).error.isSome = true ∧
    (e.Execute job creds w t0 t1).result.Status = StatusFailed := by
  obtain ⟨err, herr⟩ : ∃ err, e.validateJob job = some err := by
    unfold SSHExecutor.validateJob
    cases hval : job.Validate with
    | some e0 => exact ⟨.validation e0, rfl⟩
    | none =>
      by_cases ha : 0 < e.AllowedCommands.length ∧
          job.Command ∉ e.AllowedCommands
      · exact ⟨.notAllowed job.Command, by simp [ha]⟩
      · exact ⟨.checksumMismatch, by simp [ha, Ne.symm h]⟩
  simp [SSHExecutor.Execute, herr, SSHExecutor.buildResult, statusFromError]

/-- C1 witness: a concrete valid job carrying the checksum `"deadbeef"`,
which is not the SHA-256 of its command `"ls"`, makes `Execute` fail
without dialing. -/
theorem execute_checksum_mismatch_never_dials_witness :
    mismatchJob.Checksum ≠ sha256Hex mismatchJob.Command ∧
    ((demoExecutor.Execute mismatchJob demoCreds okWorld 5 6).dialed = false ∧
     (demoExecutor.Execute mismatchJob demoCreds okWorld 5 6).error.isSome
       = true ∧
     (demoExecutor.Execute mismatchJob demoCreds okWorld 5 6).result.Status
       = StatusFailed) :=
  ⟨by decide,
   execute_checksum_mismatch_never_dials demoExecutor mismatchJob demoCreds
     okWorld 5 6 (by decide)⟩

/-- C2.  For every valid job `j` and every store in which `j.ID` is absent
and the queue is empty, `Enqueue j` succeeds, the next `Next` returns
exactly `j` and marks its record `running`, and a second `Next` with no
intervening `Enqueue` signals "no job available". -/
theorem store_enqueue_next_roundtrip (s : Store) (j : JobDefinition)
    (hv : j.Validate = none) (habs : s.find j.ID = none) (hq : s.queue = []) :
    (s.Enqueue j).2 = none ∧
    ((s.Enqueue j).1.Next).2 = some j ∧
    ((s.Enqueue j).1.Next).1.statusOf j.ID = some StatusRunning ∧
    (((s.Enqueue j).1.Next).1.Next).2 = none := by
  have he : s.Enqueue j =
      ({ queue := s.queue ++ [j.ID],
         records := updateRecord s.records j.ID
           { job := j, status := StatusPending, result := none } }, none) := by
    simp [Store.Enqueue, hv, habs]
  rw [he, hq]
  simp [Store.Next, Store.find, Store.statusOf, lookupRecord_update_self]

/-- C2 witness: the round trip on the fresh store and a concrete valid
job. -/
theorem store_enqueue_next_roundtrip_witness :
    (NewStore.Enqueue (demoJob "j2")).2 = none ∧
    ((NewStore.Enqueue (demoJob "j2")).1.Next).2 = some (demoJob "j2") ∧
    ((NewStore.Enqueue (demoJob "j2")).1.Next).1.statusOf "j2"
      = some StatusRunning ∧
    (((NewStore.Enqueue (demoJob "j2")).1.Next).1.Next).2 = none :=
  store_enqueue_next_roundtrip NewStore (demoJob "j2") (by decide) (by decide)
    (by decide)

/-- C5 counterexample: the store already holds a (valid) job with ID
`"a"`; enqueueing an invalid job with the same ID fails with the
validation error for the missing command, not with the duplicate-job
error — `Enqueue` validates before it checks for a duplicate. -/
theorem enqueue_duplicate_error_counterexample :
    (dupStore.find invalidDupJob.ID).isSome = true ∧
    (dupStore.Enqueue invalidDupJob).2
      = some (.invalidJob (.missingCommand "a")) ∧
    (dupStore.Enqueue invalidDupJob).2
      ≠ some (.alreadyExists invalidDupJob.ID) := by decide

/-- C5 (amended).  `Enqueue` of a *valid* job whose ID is already present
fails with the duplicate-job error and leaves the store (queue and record
table) exactly as before; `Enqueue` of an invalid job fails with its
validation error and likewise has no side effect — so an invalid job
whose ID is already present surfaces the validation error, not the
duplicate error. -/
theorem enqueue_duplicate_unchanged (s : Store) (j : JobDefinition) :
    (j.Validate = none → (s.find j.ID).isSome = true →
      (s.Enqueue j).1 = s ∧ (s.Enqueue j).2 = some (.alreadyExists j.ID)) ∧
    (∀ e, j.Validate = some e →
      (s.Enqueue j).1 = s ∧ (s.Enqueue j).2 = some (.invalidJob e)) := by
  constructor
  · intro hv hp
    obtain ⟨rec, hrec⟩ := Option.isSome_iff_exists.mp hp
    simp [Store.Enqueue, hv, hrec]
  · intro e he
    simp [Store.Enqueue, he]

/-- C5 witness: re-enqueueing the valid job `"a"` into the store that
already holds it fails with the duplicate error and changes nothing. -/
theorem enqueue_duplicate_unchanged_witness :
    (dupStore.Enqueue (demoJob "a")).1 = dupStore ∧
    (dupStore.Enqueue (demoJob "a")).2 = some (.alreadyExists "a") :=
  (enqueue_duplicate_unchanged dupStore (demoJob "a")).1 (by decide)
    (by decide)

/-- C6.  `Complete` fails with the unknown-job error exactly when
`result.JobID` has no record; in that case the store is untouched and a
`Lookup` of the ID still reports not found.  When the record exists,
`Complete` succeeds, overwrites the record's status with `result.Status`
and stores a copy of the result, and a later `Complete` for the same
`JobID` overwrites the earlier result (last-write-wins). -/
theorem complete_unknown_iff_and_overwrites (s : Store)
    (r r2 : jobs.Result) (h2 : r2.JobID = r.JobID) :
    ((s.Complete r).2 = some (.notFound r.JobID) ↔ s.find r.JobID = none) ∧
    (s.find r.JobID = none →
      (s.Complete r).1 = s ∧ (s.Lookup r.JobID).2.2 = false) ∧
    (∀ rec, s.find r.JobID = some rec →
      (s.Complete r).2 = none ∧
      (s.Complete r).1.Lookup r.JobID = (r.Status, some r, true) ∧
      ((s.Complete r).1.Complete r2).1.Lookup r.JobID
        = (r2.Status, some r2, true)) := by
  cases hf : s.find r.JobID with
  | none =>
    have hf' : lookupRecord s.records r.JobID = none := hf
    refine ⟨by simp [Store.Complete, hf, hf'], ?_, ?_⟩
    · intro _
      exact ⟨by simp [Store.Complete, hf, hf'],
             by simp [Store.Lookup, Store.find, hf, hf']⟩
    · intro rec hrec
      exact Option.noConfusion hrec
  | some rec =>
    have hf' : lookupRecord s.records r.JobID = some rec := hf
    refine ⟨by simp [Store.Complete, hf, hf'], ?_, ?_⟩
    · intro hnone
      exact Option.noConfusion hnone
    · intro rec' hrec'
      refine ⟨by simp [Store.Complete, hf, hf'], ?_, ?_⟩
      · simp [Store.Complete, hf, hf', Store.Lookup, Store.find,
          lookupRecord_update_self]
      · simp [Store.Complete, hf, hf', Store.Lookup, Store.find, h2,
          lookupRecord_update_self]

/-- C6 witness: completing job `"a"` twice — first as succeeded, then as
failed — leaves the failed result as the stored one. -/
theorem complete_unknown_iff_and_overwrites_witness :
    (dupStore.Complete res1).2 = none ∧
    (dupStore.Complete res1).1.Lookup "a" = (StatusSucceeded, some res1, true) ∧
    ((dupStore.Complete res1).1.Complete res2).1.Lookup "a"
      = (StatusFailed, some res2, true) :=
  (complete_unknown_iff_and_overwrites dupStore res1 res2 (by decide)).2.2
    { job := demoJob "a", status := StatusPending, result := none }
    (by decide)

/-- C4 (code bug).  On the PTY-request failure branch,
`SSHExecutor.Execute` returns the zero `jobs.Result{}` next to its
non-nil error instead of a `buildResult` value: the returned result's
`JobID` is empty (not the job's ID), its `Status` is the zero string (not
`failed`), and its `Error` field is empty — the one branch the
`return jobs.Result{}, err → buildResult` rewrite visible in the
surrounding code missed. -/
theorem execute_pty_failure_malformed_result :
    ptyOutcome.error = some (.requestPty "pty rejected") ∧
    ptyOutcome.result = jobs.Result.zero ∧
    ptyOutcome.result.JobID ≠ ptyJob.ID ∧
    ptyOutcome.result.Status ≠ StatusFailed ∧
    ptyOutcome.result.Error = "" := by decide

/-- C7 (code bug).  The same PTY-request failure is "another failure"
that produces neither a remote exit status nor `ExitCode = -1`: the zero
result's `ExitCode` is `0` even though `Execute` returns a non-nil,
non-exit-status error. -/
theorem execute_pty_failure_exit_code :
    ptyOutcome.error = some (.requestPty "pty rejected") ∧
    ptyOutcome.result.ExitCode = 0 ∧
    ptyOutcome.result.ExitCode ≠ -1 := by decide

/-- C8 (code bug).  On the PTY-request failure branch the returned
result's `StartedAt`/`FinishedAt` are the zero time, not the clock
readings bracketing the attempt (here 5 and 9). -/
theorem execute_pty_failure_timestamps :
    ptyOutcome.error.isSome = true ∧
    ptyOutcome.result.StartedAt = 0 ∧
    ptyOutcome.result.FinishedAt = 0 ∧
    ptyOutcome.result.StartedAt ≠ 5 ∧
    ptyOutcome.result.FinishedAt ≠ 9 := by decide

/-- C9.  The HTTP long-poll transport: a 204 makes `NextJob` sleep and
poll again; a 200 carrying a deserializable, valid job returns that job
(with its ID as the receipt token); every other status is a hard error
ending the loop.  `WriteResult` returns nil only when the POST answered
202, and surfaces any other status as an error without retrying. -/
theorem http_poll_and_report_semantics :
    (∀ rest body parsed,
      nextJobLoop (.resp 204 body parsed :: rest) = nextJobLoop rest) ∧
    (∀ rest body (j : JobDefinition), j.Validate = none →
      nextJobLoop (.resp 200 body (some j) :: rest) = some (.job j j.ID)) ∧
    (∀ rest status body parsed, status ≠ 200 → status ≠ 204 →
      nextJobLoop (.resp status body parsed :: rest)
        = some (.err (.badStatus status body))) ∧
    (∀ jobID ev, WriteResult jobID ev = none → ∃ body, ev = .resp 202 body) ∧
    (∀ jobID status body, goTrimSpace jobID ≠ "" → status ≠ 202 →
      WriteResult jobID (.resp status body)
        = some (.rejected status body)) := by
  refine ⟨?_, ?_, ?_, ?_, ?_⟩
  · intro rest body parsed
    simp [nextJobLoop]
  · intro rest body j hv
    simp [nextJobLoop, hv]
  · intro rest status body parsed h200 h204
    simp [nextJobLoop, h200, h204]
  · intro jobID ev h
    unfold WriteResult at h
    by_cases hb : goTrimSpace jobID = ""
    · simp [hb] at h
    · cases ev with
      | doErr m => simp [hb] at h
      | readErr m => simp [hb] at h
      | resp status body =>
        by_cases h202 : status = 202
        · exact ⟨body, by rw [h202]⟩
        · simp [hb, h202] at h
  · intro jobID status body hb h202
    simp [WriteResult, hb, h202]

/-- C9 witness: two idle polls then a 200 with a valid job return that
job; a 500 on the result POST is surfaced as the rejection error. -/
theorem http_poll_and_report_semantics_witness :
    nextJobLoop
      [.resp 204 "" none, .resp 204 "" none,
       .resp 200 "{}" (some (demoJob "h1"))]
      = some (.job (demoJob "h1") "h1") ∧
    WriteResult "h1" (.resp 500 "boom") = some (.rejected 500 "boom") :=
  ⟨by
    rw [http_poll_and_report_semantics.1, http_poll_and_report_semantics.1]
    exact http_poll_and_report_semantics.2.1 [] "{}" (demoJob "h1")
      (by decide),
   http_poll_and_report_semantics.2.2.2.2 "h1" 500 "boom" (by decide)
     (by decide)⟩

/-- `filepath.Ext` scanning a path that ends in `.json`: the scan stops
inside the literal tail, whatever comes before. -/
theorem extRevScan_json (rest : List Char) :
    extRevScan ('n' :: 'o' :: 's' :: 'j' :: '.' :: rest)
      = some ['n', 'o', 's', 'j', '.'] := rfl

/-- `filepath.Ext` scanning a path that ends in `.result`. -/
theorem extRevScan_result (rest : List Char) :
    extRevScan ('t' :: 'l' :: 'u' :: 's' :: 'e' :: 'r' :: '.' :: rest)
      = some ['t', 'l', 'u', 's', 'e', 'r', '.'] := rfl

/-- The final extension of any written result path is `.json`. -/
theorem goExt_resultPath (p : List Char) :
    goExt (resultPath p) = ".json".data := by
  unfold goExt resultPath
  rw [List.reverse_append]
  have h1 : (".result.json".data).reverse
      = 'n' :: 'o' :: 's' :: 'j' :: '.' :: 't' :: 'l' :: 'u' :: 's' :: 'e'
        :: 'r' :: '.' :: ([] : List Char) := rfl
  rw [h1]
  simp only [List.cons_append, List.nil_append]
  rw [extRevScan_json]
  rfl

/-- `isPrefixOf` on the reversed `.json` suffix. -/
theorem isPrefixOf_json_rev (rest : List Char) :
    (['n', 'o', 's', 'j', '.'] : List Char).isPrefixOf
      ('n' :: 'o' :: 's' :: 'j' :: '.' :: rest) = true := by
  simp [List.isPrefixOf]

/-- `List.take` past an appended front segment. -/
theorem take_length_add (p l : List Char) (n : Nat) :
    (p ++ l).take (p.length + n) = p ++ l.take n := by
  induction p with
  | nil => simp
  | cons c t ih =>
    have h : t.length + 1 + n = (t.length + n) + 1 := by omega
    simp [h, ih]

/-- Trimming the `.json` suffix from a written result path leaves the job
path with `.result` appended. -/
theorem trimSuffix_resultPath (p : List Char) :
    goTrimSuffix (resultPath p) ".json".data = p ++ ".result".data := by
  unfold goTrimSuffix resultPath
  have hs : (".json".data).isSuffixOf (p ++ ".result.json".data) = true := by
    show (".json".data).reverse.isPrefixOf
      ((p ++ ".result.json".data).reverse) = true
    rw [List.reverse_append]
    have h1 : (".result.json".data).reverse
        = 'n' :: 'o' :: 's' :: 'j' :: '.' :: 't' :: 'l' :: 'u' :: 's' :: 'e'
          :: 'r' :: '.' :: ([] : List Char) := rfl
    rw [h1]
    simp only [List.cons_append, List.nil_append]
    exact isPrefixOf_json_rev _
  rw [hs]
  simp only [if_true]
  have hl : (p ++ ".result.json".data).length - (".json".data).length
      = p.length + 7 := by
    simp [List.length_append]
  rw [hl, take_length_add]
  rfl

/-- The preceding extension of any written result path is `.result`. -/
theorem goExt_trimmed_resultPath (p : List Char) :
    goExt (p ++ ".result".data) = ".result".data := by
  unfold goExt
  rw [List.reverse_append]
  have h1 : (".result".data).reverse
      = 't' :: 'l' :: 'u' :: 's' :: 'e' :: 'r' :: '.' :: ([] : List Char) :=
    rfl
  rw [h1]
  simp only [List.cons_append, List.nil_append]
  rw [extRevScan_result]
  rfl

/-- The two-suffix filter rejects every written result path. -/
theorem jobFileFilter_resultPath (p : List Char) :
    jobFileFilter (resultPath p) = false := by
  unfold jobFileFilter
  rw [goExt_resultPath, trimSuffix_resultPath, goExt_trimmed_resultPath]
  rfl

/-- A selected path passed the two-suffix filter. -/
theorem scanSelect_passes_filter (entries : List DirEntry) (sel : List Char)
    (h : scanSelect entries = some sel) : jobFileFilter sel = true := by
  induction entries with
  | nil => exact Option.noConfusion h
  | cons e rest ih =>
    unfold scanSelect at h
    by_cases hd : e.isDir
    · rw [if_pos hd] at h
      exact ih h
    · rw [if_neg hd] at h
      by_cases hf : jobFileFilter e.path
      · rw [if_pos hf] at h
        cases h
        exact hf
      · rw [if_neg hf] at h
        exact ih h

/-- C10.  The inbox scan selects a path only if its final extension is
`.json` and the preceding extension is `.job`; every result path the
transport itself writes (`jobPath + ".result.json"`, whose preceding
extension is `.result`) fails that filter, so a written result file can
never be selected as a job. -/
theorem scan_never_selects_result_files (entries : List DirEntry)
    (p sel : List Char) :
    (scanSelect entries = some sel → jobFileFilter sel = true) ∧
    jobFileFilter (resultPath p) = false ∧
    (scanSelect entries = some sel → sel ≠ resultPath p) := by
  refine ⟨scanSelect_passes_filter entries sel,
    jobFileFilter_resultPath p, ?_⟩
  intro h heq
  have htrue := scanSelect_passes_filter entries sel h
  rw [heq, jobFileFilter_resultPath] at htrue
  exact Bool.false_ne_true htrue

/-- C10 witness: on a listing that contains a leftover result file
`inbox/a.job.json.result.json` ahead of the job file `inbox/a.job.json`,
the scan skips the result file, selects the job file, and the selected
path is not the result path of the job file it selects. -/
theorem scan_never_selects_result_files_witness :
    jobFileFilter (resultPath "inbox/a.job.json".data) = false ∧
    "inbox/a.job.json".data ≠ resultPath "inbox/a.job.json".data :=
  ⟨(scan_never_selects_result_files demoEntries "inbox/a.job.json".data
      "inbox/a.job.json".data).2.1,
   (scan_never_selects_result_files demoEntries "inbox/a.job.json".data
      "inbox/a.job.json".data).2.2 (by decide)⟩

/-- C3 counterexample: `Complete` writes `result.Status` into the record
unguarded, so a pending job completed as `succeeded` reaches a terminal
status without ever being `running` (`skipOps`), and a running job
completed with a `pending`-status result moves back to `pending`
(`regressOps`). -/
theorem store_status_transitions_counterexample :
    statusAt skipOps "c1" 0 = none ∧
    statusAt skipOps "c1" 1 = some StatusPending ∧
    statusAt skipOps "c1" 2 = some StatusSucceeded ∧
    statusAt regressOps "r1" 2 = some StatusRunning ∧
    statusAt regressOps "r1" 3 = some StatusPending := by decide

/-- The fresh store satisfies the invariant. -/
theorem storeInv_new : StoreInv NewStore := by
  refine ⟨List.nodup_nil, ?_, ?_⟩
  · intro id hid
    cases hid
  · intro id r hr
    exact Option.noConfusion hr


/-- One disciplined call preserves the store invariant. -/
theorem okStep_preserves_inv (s : Store) (op : Op) (hs : StoreInv s)
    (hop : okStep s op = true) : StoreInv (applyOp s op) := by
  obtain ⟨hnd, hqp, hrange⟩ := hs
  cases op with
  | lookupOp i => exact ⟨hnd, hqp, hrange⟩
  | enqueue j =>
    cases hv : j.Validate with
    | some e =>
      have happ : applyOp s (Op.enqueue j) = s := by
        simp [applyOp, Store.Enqueue, hv]
      rw [happ]
      exact ⟨hnd, hqp, hrange⟩
    | none =>
      cases hfind : s.find j.ID with
      | some rec =>
        have happ : applyOp s (Op.enqueue j) = s := by
          simp [applyOp, Store.Enqueue, hv, hfind]
        rw [happ]
        exact ⟨hnd, hqp, hrange⟩
      | none =>
        have happ : applyOp s (Op.enqueue j) =
            { queue := s.queue ++ [j.ID],
              records := updateRecord s.records j.ID
                { job := j, status := StatusPending, result := none } } := by
          simp [applyOp, Store.Enqueue, hv, hfind]
        rw [happ]
        have hnotq : j.ID ∉ s.queue := by
          intro hmem
          have hp := hqp j.ID hmem
          simp [Store.statusOf, hfind] at hp
        refine ⟨?_, ?_, ?_⟩
        · rw [List.nodup_append]
          refine ⟨hnd, List.nodup_singleton _, ?_⟩
          intro x hxq hxs
          have hx : x = j.ID := by simpa using hxs
          rw [hx] at hxq
          exact hnotq hxq
        · intro id hid
          rcases List.mem_append.mp hid with hin | hin
          · have hne : id ≠ j.ID := by
              intro he
              rw [he] at hin
              exact hnotq hin
            have hp := hqp id hin
            simp only [Store.statusOf, Store.find] at hp ⊢
            rw [lookupRecord_update_ne _ _ _ _ hne]
            exact hp
          · have hx : id = j.ID := by simpa using hin
            rw [hx]
            simp only [Store.statusOf, Store.find]
            rw [lookupRecord_update_self]
            rfl
        · intro id r hr
          by_cases hne : id = j.ID
          · rw [hne] at hr
            simp only [Store.find] at hr
            rw [lookupRecord_update_self] at hr
            injection hr with hr
            rw [← hr]
            exact Or.inl rfl
          · simp only [Store.find] at hr
            rw [lookupRecord_update_ne _ _ _ _ hne] at hr
            exact hrange id r hr
  | next =>
    cases hq : s.queue with
    | nil =>
      have happ : applyOp s Op.next = s := by
        simp [applyOp, Store.Next, hq]
      rw [happ]
      exact ⟨hnd, hqp, hrange⟩
    | cons jobID rest =>
      have hnd' : rest.Nodup := by
        rw [hq] at hnd
        exact hnd.of_cons
      cases hfind : s.find jobID with
      | none =>
        have happ : applyOp s Op.next = { queue := rest, records := s.records } := by
          simp [applyOp, Store.Next, hq, hfind]
        rw [happ]
        refine ⟨hnd', ?_, ?_⟩
        · intro id hid
          have hmem : id ∈ s.queue := by
            rw [hq]
            exact List.mem_cons_of_mem _ hid
          exact hqp id hmem
        · intro id r hr
          exact hrange id r hr
      | some rec =>
        have hnotin : jobID ∉ rest := by
          rw [hq] at hnd
          exact (List.nodup_cons.mp hnd).1
        have happ : applyOp s Op.next =
            { queue := rest,
              records := updateRecord s.records jobID
                { job := rec.job, status := StatusRunning,
                  result := rec.result } } := by
          simp [applyOp, Store.Next, hq, hfind]
        rw [happ]
        refine ⟨hnd', ?_, ?_⟩
        · intro id hid
          have hne : id ≠ jobID := by
            intro he
            rw [he] at hid
            exact hnotin hid
          have hmem : id ∈ s.queue := by
            rw [hq]
            exact List.mem_cons_of_mem _ hid
          have hp := hqp id hmem
          simp only [Store.statusOf, Store.find] at hp ⊢
          rw [lookupRecord_update_ne _ _ _ _ hne]
          exact hp
        · intro id r hr
          by_cases hne : id = jobID
          · rw [hne] at hr
            simp only [Store.find] at hr
            rw [lookupRecord_update_self] at hr
            injection hr with hr
            rw [← hr]
            exact Or.inr (Or.inl rfl)
          · simp only [Store.find] at hr
            rw [lookupRecord_update_ne _ _ _ _ hne] at hr
            exact hrange id r hr
  | complete r =>
    simp only [okStep, Bool.and_eq_true, Bool.or_eq_true, beq_iff_eq,
      Bool.not_eq_true', beq_eq_false_iff_ne] at hop
    obtain ⟨hterm, hnp⟩ := hop
    cases hfind : s.find r.JobID with
    | none =>
      have happ : applyOp s (Op.complete r) = s := by
        simp [applyOp, Store.Complete, hfind]
      rw [happ]
      exact ⟨hnd, hqp, hrange⟩
    | some rec =>
      have happ : applyOp s (Op.complete r) =
          { queue := s.queue,
            records := updateRecord s.records r.JobID
              { job := rec.job, status := r.Status, result := some r } } := by
        simp [applyOp, Store.Complete, hfind]
      rw [happ]
      refine ⟨hnd, ?_, ?_⟩
      · intro id hid
        have hpend := hqp id hid
        have hne : id ≠ r.JobID := by
          intro he
          apply hnp
          rw [← he]
          exact hpend
        simp only [Store.statusOf, Store.find] at hpend ⊢
        rw [lookupRecord_update_ne _ _ _ _ hne]
        exact hpend
      · intro id r' hr'
        by_cases hne : id = r.JobID
        · rw [hne] at hr'
          simp only [Store.find] at hr'
          rw [lookupRecord_update_self] at hr'
          injection hr' with hr'
          rw [← hr']
          rcases hterm with h | h
          · exact Or.inr (Or.inr (Or.inl h))
          · exact Or.inr (Or.inr (Or.inr h))
        · simp only [Store.find] at hr'
          rw [lookupRecord_update_ne _ _ _ _ hne] at hr'
          exact hrange id r' hr'

/-- One disciplined call moves every record's status forward. -/
theorem okStep_forward (s : Store) (op : Op) (hs : StoreInv s)
    (hop : okStep s op = true) (id : String) :
    forwardStep (s.statusOf id) ((applyOp s op).statusOf id) := by
  obtain ⟨hnd, hqp, hrange⟩ := hs
  cases op with
  | lookupOp i => exact Or.inl rfl
  | enqueue j =>
    cases hv : j.Validate with
    | some e =>
      have happ : applyOp s (Op.enqueue j) = s := by
        simp [applyOp, Store.Enqueue, hv]
      rw [happ]
      exact Or.inl rfl
    | none =>
      cases hfind : s.find j.ID with
      | some rec =>
        have happ : applyOp s (Op.enqueue j) = s := by
          simp [applyOp, Store.Enqueue, hv, hfind]
        rw [happ]
        exact Or.inl rfl
      | none =>
        have happ : applyOp s (Op.enqueue j) =
            { queue := s.queue ++ [j.ID],
              records := updateRecord s.records j.ID
                { job := j, status := StatusPending, result := none } } := by
          simp [applyOp, Store.Enqueue, hv, hfind]
        rw [happ]
        by_cases hne : id = j.ID
        · rw [hne]
          have hold : s.statusOf j.ID = none := by
            simp [Store.statusOf, hfind]
          refine Or.inr (Or.inl ⟨hold, ?_⟩)
          simp only [Store.statusOf, Store.find]
          rw [lookupRecord_update_self]
          rfl
        · refine Or.inl ?_
          simp only [Store.statusOf, Store.find]
          rw [lookupRecord_update_ne _ _ _ _ hne]
  | next =>
    cases hq : s.queue with
    | nil =>
      have happ : applyOp s Op.next = s := by
        simp [applyOp, Store.Next, hq]
      rw [happ]
      exact Or.inl rfl
    | cons jobID rest =>
      cases hfind : s.find jobID with
      | none =>
        have happ : applyOp s Op.next =
            { queue := rest, records := s.records } := by
          simp [applyOp, Store.Next, hq, hfind]
        rw [happ]
        exact Or.inl rfl
      | some rec =>
        have happ : applyOp s Op.next =
            { queue := rest,
              records := updateRecord s.records jobID
                { job := rec.job, status := StatusRunning,
                  result := rec.result } } := by
          simp [applyOp, Store.Next, hq, hfind]
        rw [happ]
        by_cases hne : id = jobID
        · rw [hne]
          have hold : s.statusOf jobID = some StatusPending :=
            hqp jobID (by rw [hq]; exact List.mem_cons_self _ _)
          refine Or.inr (Or.inr (Or.inl ⟨hold, ?_⟩))
          simp only [Store.statusOf, Store.find]
          rw [lookupRecord_update_self]
          rfl
        · refine Or.inl ?_
          simp only [Store.statusOf, Store.find]
          rw [lookupRecord_update_ne _ _ _ _ hne]
  | complete r =>
    simp only [okStep, Bool.and_eq_true, Bool.or_eq_true, beq_iff_eq,
      Bool.not_eq_true', beq_eq_false_iff_ne] at hop
    obtain ⟨hterm, hnp⟩ := hop
    cases hfind : s.find r.JobID with
    | none =>
      have happ : applyOp s (Op.complete r) = s := by
        simp [applyOp, Store.Complete, hfind]
      rw [happ]
      exact Or.inl rfl
    | some rec =>
      have happ : applyOp s (Op.complete r) =
          { queue := s.queue,
            records := updateRecord s.records r.JobID
              { job := rec.job, status := r.Status, result := some r } } := by
        simp [applyOp, Store.Complete, hfind]
      rw [happ]
      by_cases hne : id = r.JobID
      · rw [hne]
        have hold : s.statusOf r.JobID = some rec.status := by
          simp [Store.statusOf, hfind]
        have hrecne : rec.status ≠ StatusPending := by
          intro hp
          apply hnp
          rw [hold, hp]
        have hnew : (Store.statusOf
            { queue := s.queue,
              records := updateRecord s.records r.JobID
                { job := rec.job, status := r.Status, result := some r } }
            r.JobID) = some r.Status := by
          simp only [Store.statusOf, Store.find]
          rw [lookupRecord_update_self]
          rfl
        rcases hrange r.JobID rec hfind with hp | hrun | hsucc | hfail
        · exact absurd hp hrecne
        · refine Or.inr (Or.inr (Or.inr (Or.inl ⟨by rw [hold, hrun], ?_⟩)))
          rw [hnew]
          rcases hterm with h | h
          · exact Or.inl (by rw [h])
          · exact Or.inr (by rw [h])
        · refine Or.inr (Or.inr (Or.inr (Or.inr
            ⟨Or.inl (by rw [hold, hsucc]), ?_⟩)))
          rw [hnew]
          rcases hterm with h | h
          · exact Or.inl (by rw [h])
          · exact Or.inr (by rw [h])
        · refine Or.inr (Or.inr (Or.inr (Or.inr
            ⟨Or.inr (by rw [hold, hfail]), ?_⟩)))
          rw [hnew]
          rcases hterm with h | h
          · exact Or.inl (by rw [h])
          · exact Or.inr (by rw [h])
      · refine Or.inl ?_
        simp only [Store.statusOf, Store.find]
        rw [lookupRecord_update_ne _ _ _ _ hne]

/-- Along a disciplined call sequence from any invariant-satisfying
start, consecutive prefix states are one `forwardStep` apart. -/
theorem validOps_forward (s : Store) (ops : List Op) (hs : StoreInv s)
    (h : ValidOps s ops) (id : String) (n : Nat) :
    forwardStep (((ops.take n).foldl applyOp s).statusOf id)
      (((ops.take (n + 1)).foldl applyOp s).statusOf id) := by
  induction ops generalizing s n with
  | nil =>
    simp only [List.take_nil, List.foldl_nil]
    exact Or.inl rfl
  | cons op t ih =>
    cases h with
    | cons hop ht =>
      cases n with
      | zero =>
        simp only [List.take_zero, List.foldl_nil, List.take_succ_cons,
          List.take_nil, List.foldl_cons]
        exact okStep_forward s op hs hop id
      | succ m =>
        simp only [List.take_succ_cons, List.foldl_cons]
        exact ih (applyOp s op) (okStep_preserves_inv s op hs hop) ht m

/-- C3 (amended).  Along every store call sequence in which each
`Complete` carries a terminal status (`succeeded`/`failed`) and targets a
job that is no longer pending (one already handed out by `Next`), a
record's status only moves forward along
`pending → running → (succeeded | failed)` — in particular no call moves
a record back to `pending`, terminal statuses are only overwritten by
terminal statuses (last-write-wins re-completion), and no record reaches
a terminal status without having been `running` at some earlier point.
Without that discipline the claim is false: `Complete` copies
`result.Status` into the record unguarded (see the counterexample). -/
theorem store_status_forward_discipline (ops : List Op)
    (h : ValidOps NewStore ops) (id : String) (n : Nat) :
    forwardStep (statusAt ops id n) (statusAt ops id (n + 1)) ∧
    (statusAt ops id n = some StatusSucceeded ∨
        statusAt ops id n = some StatusFailed →
      ∃ m, m < n ∧ statusAt ops id m = some StatusRunning) := by
  constructor
  · exact validOps_forward NewStore ops storeInv_new h id n
  · induction n with
    | zero =>
      intro habs
      have h0 : statusAt ops id 0 = none := rfl
      rcases habs with habs | habs <;> rw [h0] at habs <;>
        exact Option.noConfusion habs
    | succ m ih =>
      intro hterm
      have hf : forwardStep (statusAt ops id m) (statusAt ops id (m + 1)) :=
        validOps_forward NewStore ops storeInv_new h id m
      rcases hf with heq | ⟨_, hnew⟩ | ⟨_, hnew⟩ | ⟨hold, _⟩ | ⟨hold, _⟩
      · rw [heq] at hterm
        obtain ⟨k, hk, hrk⟩ := ih hterm
        exact ⟨k, Nat.lt_succ_of_lt hk, hrk⟩
      · rcases hterm with ht | ht <;> rw [hnew] at ht <;>
          exact absurd ht (by decide)
      · rcases hterm with ht | ht <;> rw [hnew] at ht <;>
          exact absurd ht (by decide)
      · exact ⟨m, Nat.lt_succ_self m, hold⟩
      · obtain ⟨k, hk, hrk⟩ := ih hold
        exact ⟨k, Nat.lt_succ_of_lt hk, hrk⟩

/-- C3 (amended) witness: along the disciplined sequence enqueue `"w1"`,
dequeue it, complete it as succeeded, the record is terminal after the
third call and was indeed `running` at an earlier point. -/
theorem store_status_forward_discipline_witness :
    ∃ m, m < 3 ∧ statusAt demoOps "w1" m = some StatusRunning :=
  (store_status_forward_discipline demoOps
      (.cons (by decide) (.cons (by decide) (.cons (by decide) (.nil _))))
      "w1" 3).2
    (Or.inl (by decide))
